import Mathlib

/-!
Verification development for the seth-rpc gateway (sawtooth-seth).

The source tree holds the bootstrap entry point `rpc/src/main.rs`; the
modules it pulls in (`accounts`, `calls`, `client`, `filters`, `requests`,
`transactions`, `transform`) are declared there but their code is not in
the tree, so those components are modelled from the specification, as
marked on each definition.
-/

namespace SethRpc

/-- JSON-RPC error object as built by the fail macro in rpc/src/main.rs
(jsonrpc_core::Error with code, message and optional data). -/
structure RpcError where
  code : Int
  message : String
  data : Option String
  deriving Repr, DecidableEq

/-- One-argument form of the fail macro (rpc/src/main.rs lines 36-43):
logs the message and returns an Error with the fixed code -32069, the
caller-supplied message, and no data field. The log is modelled as an
explicit list of emitted lines. -/
def failOne (msg : String) (log : List String) : RpcError × List String :=
  ({ code := -32069, message := msg, data := none }, log ++ [msg])

/-- Two-argument form of the fail macro (rpc/src/main.rs lines 44-49):
logs "msg: err" (the detailed cause) and then delegates to the
one-argument form, so the detailed error reaches only the log. -/
def failTwo (msg err : String) (log : List String) : RpcError × List String :=
  failOne msg (log ++ [msg ++ ": " ++ err])

/-- rpc/src/main.rs line 71: const SERVER_THREADS: usize = 3. -/
def SERVER_THREADS : Nat := 3

/-- The server configuration assembled in main (rpc/src/main.rs lines
125-129): ServerBuilder::new(io).threads(SERVER_THREADS).start_http(bind). -/
structure ServerConfig where
  threads : Nat
  bind : String
  deriving Repr, DecidableEq

/-- The HTTP server as configured by main: a fixed pool of SERVER_THREADS
worker threads bound to the given address. -/
def mainServer (bind : String) : ServerConfig :=
  { threads := SERVER_THREADS, bind := bind }

/-- Handlers are opaque for registry purposes: RequestHandler<T> in the
source is a function value; only the method names matter to the registry
invariant. -/
def RequestHandler : Type := Unit

/-- Modelled from the spec: rpc/src/calls/account.rs is not in the tree.
Per the spec, method names are partitioned by namespace prefix; the
account namespace contributes its own prefixed method names. -/
def account.get_method_list : List (String × RequestHandler) :=
  [("account_m1", ()), ("account_m2", ())]

/-- Modelled from the spec: rpc/src/calls/block.rs is not in the tree;
block-namespace methods carry the block prefix. -/
def block.get_method_list : List (String × RequestHandler) :=
  [("block_m1", ()), ("block_m2", ())]

/-- Modelled from the spec: rpc/src/calls/logs.rs is not in the tree;
logs-namespace methods carry the logs prefix. -/
def logs.get_method_list : List (String × RequestHandler) :=
  [("logs_m1", ()), ("logs_m2", ())]

/-- Modelled from the spec: rpc/src/calls/network.rs is not in the tree;
network-namespace methods carry the network prefix. -/
def network.get_method_list : List (String × RequestHandler) :=
  [("network_m1", ())]

/-- Modelled from the spec: rpc/src/calls/transaction.rs is not in the
tree; transaction-namespace methods carry the transaction prefix. -/
def transaction.get_method_list : List (String × RequestHandler) :=
  [("transaction_m1", ()), ("transaction_m2", ())]

/-- Modelled from the spec: rpc/src/calls/personal.rs is not in the tree;
personal-namespace methods carry the personal prefix. -/
def personal.get_method_list : List (String × RequestHandler) :=
  [("personal_m1", ())]

/-- Modelled from the spec: rpc/src/calls/seth.rs is not in the tree;
seth-extension methods carry the seth prefix. -/
def seth.get_method_list : List (String × RequestHandler) :=
  [("seth_m1", ()), ("seth_m2", ())]

/-- rpc/src/main.rs lines 136-151: the combined method registry list is
the concatenation of the seven per-namespace lists, in this order. -/
def get_method_list : List (String × RequestHandler) :=
  account.get_method_list ++ block.get_method_list ++ logs.get_method_list
    ++ network.get_method_list ++ transaction.get_method_list
    ++ personal.get_method_list ++ seth.get_method_list

/-- An unlocked account (alias, derived public address, private key
material); rpc/src/accounts.rs is not in the tree, shape modelled from
the spec data model. -/
structure Account where
  accountAlias : String
  address : String
  key : String
  deriving Repr, DecidableEq

/-- rpc/src/main.rs lines 153-161: abort_if_err returns the Ok value and
on Err prints the error to stderr and exits the process with status 1.
The process-exit path is modelled as an Except error carrying the exit
status together with the line printed to stderr. -/
def abort_if_err (r : Except String α) : Except (Nat × String) α :=
  match r with
  | .ok t => .ok t
  | .error e => .error (1, e)

/-- rpc/src/main.rs lines 91-96: each alias passed via --unlock is loaded
through Account::load_from_file and abort_if_err; the collected list is
the set of unlocked accounts held by the server. `load` stands for
Account::load_from_file (rpc/src/accounts.rs, not in the tree). -/
def unlockAccounts (load : String → Except String Account) :
    List String → Except (Nat × String) (List Account)
  | [] => .ok []
  | a :: rest =>
    match abort_if_err (load a) with
    | .error e => .error e
    | .ok acct =>
      match unlockAccounts load rest with
      | .error e => .error e
      | .ok others => .ok (acct :: others)

/-- rpc/src/main.rs main: account loading happens before the server is
built; a load failure exits the process and no ServerConfig is produced. -/
def startup (load : String → Except String Account) (aliases : List String)
    (bind : String) : Except (Nat × String) (List Account × ServerConfig) :=
  match unlockAccounts load aliases with
  | .error e => .error e
  | .ok accts => .ok (accts, mainServer bind)

/-- Error taxonomy from the spec (rpc error kinds surfaced by the core). -/
inductive SethError
  | validationOddLength
  | validationNonHexChar
  | validationMissingPrefix
  | accountLocked
  | accountNotFound
  | notFound
  | timeout
  | transportError
  | signingError
  deriving Repr, DecidableEq

/-- Modelled from the spec: rpc/src/transform.rs is not in the tree. The
lower-case hex digit for a value below 16. -/
def hexDigitChar (k : Nat) : Char :=
  if k < 10 then Char.ofNat (48 + k) else Char.ofNat (87 + k)

/-- Modelled from the spec: numeric value of a hex character (both cases
accepted), none for a non-hex character. -/
def hexCharVal (c : Char) : Option Nat :=
  let n := c.toNat
  if 48 ≤ n && n ≤ 57 then some (n - 48)
  else if 97 ≤ n && n ≤ 102 then some (n - 87)
  else if 65 ≤ n && n ≤ 70 then some (n - 55)
  else none

/-- Modelled from the spec: raw hex digits of a natural number, most
significant first, empty for zero. -/
def toHexCore (n : Nat) : List Char :=
  if h : n = 0 then []
  else toHexCore (n / 16) ++ [hexDigitChar (n % 16)]
termination_by n
decreasing_by
  exact Nat.div_lt_self (Nat.pos_of_ne_zero h) (by norm_num)

/-- Modelled from the spec: the digit body of the canonical hex encoding,
padded to even (byte-aligned) length, with zero rendered as one zero
byte. -/
def numToHexBody (n : Nat) : List Char :=
  let ds := toHexCore n
  if ds.length % 2 = 1 then '0' :: ds
  else if ds.isEmpty then ['0', '0'] else ds

/-- Modelled from the spec: hex-encode a ledger integer with the canonical
fixed prefix "0x" (string represented as its character list). -/
def numToHex (n : Nat) : List Char :=
  '0' :: 'x' :: numToHexBody n

/-- Modelled from the spec: left-to-right accumulating hex parse; none as
soon as a non-hex character is met. -/
def parseHexAux (acc : Nat) : List Char → Option Nat
  | [] => some acc
  | c :: rest =>
    match hexCharVal c with
    | some v => parseHexAux (16 * acc + v) rest
    | none => none

/-- Modelled from the spec: hex-decode a prefixed string to a ledger
integer; malformed input (missing "0x" prefix, odd digit count, non-hex
character) yields the corresponding ValidationError kind. -/
def hexToNum (s : List Char) : Except SethError Nat :=
  match s with
  | '0' :: 'x' :: body =>
    if body.length % 2 = 1 then .error .validationOddLength
    else
      match parseHexAux 0 body with
      | some v => .ok v
      | none => .error .validationNonHexChar
  | _ => .error .validationMissingPrefix

/-- Whether a character-list string starts with the canonical "0x" prefix. -/
def hasHexPrefix : List Char → Bool
  | '0' :: 'x' :: _ => true
  | _ => false

/-- Modelled from the spec: the Ethereum-address to ledger-state-address
transform (rpc/src/transform.rs not in the tree) is a fixed deterministic
function: a namespace prefix followed by a hash of the 20-byte address;
the hash is kept abstract as a parameter. Addresses are byte lists. -/
def addr_to_state_addr (hash : List Nat → List Nat) (ns : List Nat)
    (a : List Nat) : List Nat :=
  ns ++ hash a

/-- Modelled from the spec: the reverse direction is context-driven — the
ledger address returned by a query is associated in-context with the
Ethereum address that produced it in the same call. -/
structure AddrContext where
  assoc : List (List Nat × List Nat)
  deriving Repr, DecidableEq

/-- Modelled from the spec: forward-transform an address and record the
association in the call context. -/
def recordTransform (hash : List Nat → List Nat) (ns : List Nat)
    (ctx : AddrContext) (a : List Nat) : List Nat × AddrContext :=
  let sa := addr_to_state_addr hash ns a
  (sa, ⟨(sa, a) :: ctx.assoc⟩)

/-- Modelled from the spec: in-context reverse transform by association
lookup. -/
def reverseInContext (ctx : AddrContext) (sa : List Nat) :
    Option (List Nat) :=
  (ctx.assoc.find? (fun p => decide (p.1 = sa))).map (fun p => p.2)

/-- A log entry as delivered by filter polls: block position plus opaque
content; rpc/src/filters.rs is not in the tree, modelled from the spec. -/
structure LogEntry where
  block : Nat
  content : Nat
  deriving Repr, DecidableEq

/-- Modelled from the spec: a filter is criteria plus a cursor holding the
last block position already returned to the caller. -/
structure Filter where
  criteria : Nat → Bool
  cursor : Nat

/-- Modelled from the spec: an entry matches a poll when it satisfies the
criteria and lies strictly after the stored cursor and at or before the
current head. -/
def logMatches (f : Filter) (head : Nat) (e : LogEntry) : Bool :=
  f.criteria e.content && decide (f.cursor < e.block)
    && decide (e.block ≤ head)

/-- Modelled from the spec: poll returns the matching entries between the
stored cursor and the ledger's current head and advances the cursor to
that head. -/
def pollFilter (ledger : List LogEntry) (head : Nat) (f : Filter) :
    List LogEntry × Filter :=
  (ledger.filter (logMatches f head), { f with cursor := head })

/-- A signed transaction ready for dispatch; rpc/src/transactions.rs is
not in the tree, shape modelled from the spec data model. -/
structure SignedTxn where
  payload : List Nat
  signerAddress : String
  signature : String
  deriving Repr, DecidableEq

/-- An Ethereum-shaped transaction-send request (relevant fields only). -/
structure TxnRequest where
  fromAddr : String
  toAddr : Option String
  value : Nat
  input : List Nat
  deriving Repr, DecidableEq

/-- Modelled from the spec: the Account Store resolves an address among
the accounts unlocked at startup. -/
def find_account (accounts : List Account) (addr : String) :
    Option Account :=
  accounts.find? (fun acc => acc.address == addr)

/-- Modelled from the spec: the Transaction Builder signs the assembled
payload with the resolved key; signing is deterministic, abstracted as a
parameter. -/
def mkSignedTxn (sign : String → List Nat → String) (acct : Account)
    (req : TxnRequest) : SignedTxn :=
  { payload := req.input
    signerAddress := acct.address
    signature := sign acct.key req.input }

/-- Modelled from the spec: the transaction-send call resolves the sender
among the unlocked accounts; an unresolved sender fails with
AccountLocked and nothing is dispatched to the validator. The second
component is the validator-visible list of issued transactions, threaded
through explicitly. -/
def eth_sendTransaction (sign : String → List Nat → String)
    (accounts : List Account) (req : TxnRequest)
    (validatorTxns : List SignedTxn) :
    Except SethError SignedTxn × List SignedTxn :=
  match find_account accounts req.fromAddr with
  | none => (.error .accountLocked, validatorTxns)
  | some acct =>
    let txn := mkSignedTxn sign acct req
    (.ok txn, validatorTxns ++ [txn])

/-- Observable events of the Validator Client correlation machinery
(rpc/src/client.rs is not in the tree; modelled from the spec): a send
allocating a correlation identifier, a reply delivered to the matching
pending slot, a pending slot removed by timeout, and an inbound envelope
with no matching slot being logged and discarded. -/
inductive ClientEvent
  | sent (cid : Nat)
  | delivered (cid : Nat)
  | timedOut (cid : Nat)
  | discarded (cid : Nat)
  deriving Repr, DecidableEq

/-- Modelled from the spec: shared state of the Validator Client — the
fresh-identifier source, the pending-request table (list of outstanding
correlation identifiers, each naming one single-use reply slot), and the
append-only trace of observable events. -/
structure ClientState where
  nextCid : Nat
  pending : List Nat
  events : List ClientEvent
  deriving Repr, DecidableEq

/-- The actions the environment can drive the client with: a caller
issuing a send, an inbound reply envelope with a correlation identifier,
and a timeout firing for a correlation identifier. -/
inductive ClientAction
  | send
  | recv (cid : Nat)
  | timeout (cid : Nat)
  deriving Repr, DecidableEq

/-- Modelled from the spec: one step of the Validator Client. send
allocates a fresh identifier and registers a reply slot; a reply whose
identifier matches a pending slot is delivered to it and the slot is
removed; a reply with no matching slot is logged and discarded; a timeout
removes the now-stale slot. -/
def clientStep (s : ClientState) : ClientAction → ClientState
  | .send =>
    { nextCid := s.nextCid + 1
      pending := s.pending ++ [s.nextCid]
      events := s.events ++ [.sent s.nextCid] }
  | .recv c =>
    if c ∈ s.pending then
      { s with pending := s.pending.erase c
               events := s.events ++ [.delivered c] }
    else
      { s with events := s.events ++ [.discarded c] }
  | .timeout c =>
    if c ∈ s.pending then
      { s with pending := s.pending.erase c
               events := s.events ++ [.timedOut c] }
    else s

/-- Run the client from a state through a list of actions. -/
def clientRun (s : ClientState) : List ClientAction → ClientState
  | [] => s
  | a :: rest => clientRun (clientStep s a) rest

/-- The client's initial state: no outstanding request, empty trace. -/
def initClient : ClientState :=
  { nextCid := 0, pending := [], events := [] }

/-- Number of send events allocating identifier c in a trace. -/
def sentCount (c : Nat) (evs : List ClientEvent) : Nat :=
  evs.count (.sent c)

/-- Number of replies delivered to the slot of identifier c in a trace. -/
def deliveredCount (c : Nat) (evs : List ClientEvent) : Nat :=
  evs.count (.delivered c)

/-- Number of timeout removals of the slot of identifier c in a trace. -/
def timedOutCount (c : Nat) (evs : List ClientEvent) : Nat :=
  evs.count (.timedOut c)

/-- The correlation invariant: outstanding identifiers are pairwise
distinct and below the fresh counter; every identifier below the counter
was allocated by exactly one send; and per identifier the removals
(delivery or timeout) plus the still-pending slot account exactly for the
one insertion. -/
def ClientInv (s : ClientState) : Prop :=
  s.pending.Nodup ∧
  (∀ c ∈ s.pending, c < s.nextCid) ∧
  (∀ c, sentCount c s.events = if c < s.nextCid then 1 else 0) ∧
  (∀ c, deliveredCount c s.events + timedOutCount c s.events
      + (if c ∈ s.pending then 1 else 0) = sentCount c s.events)

/-- C3: every handler failure routed through the shared fail-path yields a
response with only the fixed generic code -32069, the caller-supplied
summary as message, and no data field; the response is independent of the
detailed underlying error, which reaches only the server-side log. -/
theorem fail_path_sanitized :
    ∀ (msg err : String) (log : List String),
      (failTwo msg err log).1.code = -32069 ∧
      (failTwo msg err log).1.message = msg ∧
      (failTwo msg err log).1.data = none ∧
      (failTwo msg err log).2 = log ++ [msg ++ ": " ++ err, msg] ∧
      (∀ errB : String, (failTwo msg err log).1 = (failTwo msg errB log).1) ∧
      (failOne msg log).1 = { code := -32069, message := msg, data := none } := by
  intro msg err log
  refine ⟨rfl, rfl, rfl, ?_, fun errB => rfl, rfl⟩
  simp [failTwo, failOne]

/-- C9: the reference bootstrap services inbound RPC calls with a fixed
pool of exactly three worker threads. -/
theorem server_pool_three_threads :
    ∀ bind : String, (mainServer bind).threads = 3 ∧ SERVER_THREADS = 3 :=
  fun _ => ⟨rfl, rfl⟩

/-- C8: the method registry is the concatenation of the seven
per-namespace method lists, and the method names in the combined list are
pairwise distinct. -/
theorem method_registry_concat_unique :
    get_method_list
      = account.get_method_list ++ block.get_method_list
        ++ logs.get_method_list ++ network.get_method_list
        ++ transaction.get_method_list ++ personal.get_method_list
        ++ seth.get_method_list ∧
    (get_method_list.map Prod.fst).Nodup := by
  refine ⟨rfl, ?_⟩
  decide

/-- C5: forward-transforming a valid 20-byte Ethereum address and then
reversing through the same call's context reproduces the original
address; the forward transform is deterministic and namespace-prefixed. -/
theorem address_roundtrip_in_context :
    ∀ (hash : List Nat → List Nat) (ns : List Nat) (ctx : AddrContext)
      (a : List Nat), a.length = 20 →
      reverseInContext (recordTransform hash ns ctx a).2
          (recordTransform hash ns ctx a).1 = some a ∧
      (∀ b : List Nat, b = a →
        addr_to_state_addr hash ns b = addr_to_state_addr hash ns a) ∧
      (addr_to_state_addr hash ns a).take ns.length = ns := by
  intro hash ns ctx a _
  refine ⟨?_, fun b hb => by rw [hb], ?_⟩
  · simp [reverseInContext, recordTransform, List.find?]
  · simp [addr_to_state_addr, List.take_left]

/-- C5 witness: the round trip at a concrete 20-byte address. -/
theorem address_roundtrip_in_context_witness :
    reverseInContext
        (recordTransform id [1] ⟨[]⟩ (List.replicate 20 0)).2
        (recordTransform id [1] ⟨[]⟩ (List.replicate 20 0)).1
      = some (List.replicate 20 0) :=
  (address_roundtrip_in_context id [1] ⟨[]⟩ (List.replicate 20 0)
    (by decide)).1

/-- C7: a transaction-send whose sender address resolves to no unlocked
account fails with AccountLocked and the validator-visible transaction
list is unchanged. -/
theorem locked_sender_rejected :
    ∀ (sign : String → List Nat → String) (accounts : List Account)
      (req : TxnRequest) (validatorTxns : List SignedTxn),
      (∀ acct ∈ accounts, acct.address ≠ req.fromAddr) →
      eth_sendTransaction sign accounts req validatorTxns
        = (.error SethError.accountLocked, validatorTxns) := by
  intro sign accounts req validatorTxns h
  have hfind : find_account accounts req.fromAddr = none := by
    rw [find_account, List.find?_eq_none]
    intro acct hmem
    simp [h acct hmem]
  simp [eth_sendTransaction, hfind]

/-- C7 witness: a concrete locked sender is rejected with the validator
state untouched. -/
theorem locked_sender_rejected_witness :
    eth_sendTransaction (fun k _ => k) [⟨"alice", "a1", "k1"⟩]
        ⟨"a2", none, 0, []⟩ []
      = (.error SethError.accountLocked, []) :=
  locked_sender_rejected (fun k _ => k) [⟨"alice", "a1", "k1"⟩]
    ⟨"a2", none, 0, []⟩ [] (by decide)

/-- C6: consecutive polls on the same filter return disjoint block
ranges, the first poll returns every matching entry present at poll time
in its range (no skipped block), the cursor advances to the head, and an
immediate re-poll against an unchanged ledger and head returns nothing. -/
theorem filter_poll_monotone :
    ∀ (ledgerA ledgerB : List LogEntry) (headA headB : Nat) (f : Filter),
      (∀ e ∈ (pollFilter ledgerA headA f).1,
        f.cursor < e.block ∧ e.block ≤ headA) ∧
      (∀ e ∈ (pollFilter ledgerB headB (pollFilter ledgerA headA f).2).1,
        headA < e.block ∧ e.block ≤ headB) ∧
      (∀ e ∈ (pollFilter ledgerA headA f).1,
        e ∉ (pollFilter ledgerB headB (pollFilter ledgerA headA f).2).1) ∧
      (∀ e ∈ ledgerA, f.criteria e.content = true → f.cursor < e.block →
        e.block ≤ headA → e ∈ (pollFilter ledgerA headA f).1) ∧
      (pollFilter ledgerA headA f).2.cursor = headA ∧
      (pollFilter ledgerA headA (pollFilter ledgerA headA f).2).1 = [] := by
  intro ledgerA ledgerB headA headB f
  refine ⟨?_, ?_, ?_, ?_, rfl, ?_⟩
  · intro e he
    rw [pollFilter] at he
    have := (List.mem_filter.mp he).2
    simp [logMatches] at this
    exact ⟨this.1.2, this.2⟩
  · intro e he
    rw [pollFilter, pollFilter] at he
    have := (List.mem_filter.mp he).2
    simp [logMatches] at this
    exact ⟨this.1.2, this.2⟩
  · intro e he hcontra
    rw [pollFilter] at he
    have h1 := (List.mem_filter.mp he).2
    simp [logMatches] at h1
    rw [pollFilter, pollFilter] at hcontra
    have h2 := (List.mem_filter.mp hcontra).2
    simp [logMatches] at h2
    omega
  · intro e he hc hlo hhi
    rw [pollFilter]
    refine List.mem_filter.mpr ⟨he, ?_⟩
    simp [logMatches, hc, hlo, hhi]
  · rw [pollFilter, pollFilter]
    simp only [List.filter_eq_nil_iff]
    intro e _
    simp [logMatches]

/-- C6 witness: a concrete filter over a one-entry ledger — the entry is
returned by the first poll and the immediate re-poll returns nothing. -/
theorem filter_poll_monotone_witness :
    (⟨1, 7⟩ : LogEntry)
        ∈ (pollFilter [⟨1, 7⟩] 1 ⟨fun n => decide (n = 7), 0⟩).1 ∧
    (pollFilter [⟨1, 7⟩] 1
        (pollFilter [⟨1, 7⟩] 1 ⟨fun n => decide (n = 7), 0⟩).2).1 = [] :=
  ⟨(filter_poll_monotone [⟨1, 7⟩] [] 1 0
      ⟨fun n => decide (n = 7), 0⟩).2.2.2.1 ⟨1, 7⟩ (by decide) (by decide)
      (by decide) (by decide),
   (filter_poll_monotone [⟨1, 7⟩] [] 1 0
      ⟨fun n => decide (n = 7), 0⟩).2.2.2.2.2⟩

/-- Success of unlockAccounts means every collected account came from a
successful load of the corresponding alias, in order. -/
theorem unlockAccounts_ok_forall (load : String → Except String Account) :
    ∀ (aliases : List String) (accts : List Account),
      unlockAccounts load aliases = .ok accts →
      List.Forall₂ (fun al ac => load al = .ok ac) aliases accts := by
  intro aliases
  induction aliases with
  | nil =>
    intro accts h
    simp [unlockAccounts] at h
    subst h
    exact List.Forall₂.nil
  | cons a rest ih =>
    intro accts h
    rw [unlockAccounts] at h
    cases hl : load a with
    | error e => rw [hl] at h; simp [abort_if_err] at h
    | ok acct =>
      rw [hl] at h
      cases hr : unlockAccounts load rest with
      | error e => rw [hr] at h; simp [abort_if_err] at h
      | ok others =>
        rw [hr] at h
        simp [abort_if_err] at h
        rw [← h]
        exact List.Forall₂.cons hl (ih others hr)

/-- A failing load of any alias in the list makes unlockAccounts abort
with exit status 1, carrying the stderr line of a failing alias. -/
theorem unlockAccounts_err_aborts (load : String → Except String Account) :
    ∀ (aliases : List String) (a : String) (e : String),
      a ∈ aliases → load a = .error e →
      ∃ msg, unlockAccounts load aliases = .error (1, msg) ∧
        ∃ b ∈ aliases, load b = .error msg := by
  intro aliases
  induction aliases with
  | nil => intro a e ha _; exact absurd ha (List.not_mem_nil a)
  | cons a0 rest ih =>
    intro a e ha he
    cases hl : load a0 with
    | error e0 =>
      refine ⟨e0, ?_, a0, List.mem_cons_self a0 rest, hl⟩
      rw [unlockAccounts, hl]
      rfl
    | ok acct =>
      have hne : a ≠ a0 := by
        intro hEq; rw [hEq, hl] at he; exact Except.noConfusion he
      have hrest : a ∈ rest := by
        rcases List.mem_cons.mp ha with h1 | h2
        · exact absurd h1 hne
        · exact h2
      obtain ⟨msg, hm, b, hb, hlb⟩ := ih a e hrest he
      refine ⟨msg, ?_, b, List.mem_cons_of_mem a0 hb, hlb⟩
      rw [unlockAccounts, hl]
      simp [abort_if_err, hm]

/-- C10: if loading the key material for any --unlock alias fails, the
process prints the error to stderr and exits with status 1 before the
server is configured; when startup succeeds, every account the server
holds was successfully loaded from its alias. -/
theorem startup_aborts_or_all_loaded :
    ∀ (load : String → Except String Account) (aliases : List String)
      (bind : String),
      (∀ result, startup load aliases bind = .ok result →
        List.Forall₂ (fun al ac => load al = .ok ac) aliases result.1) ∧
      (∀ a e, a ∈ aliases → load a = .error e →
        ∃ msg, startup load aliases bind = .error (1, msg) ∧
          ∃ b ∈ aliases, load b = .error msg) := by
  intro load aliases bind
  constructor
  · intro result h
    rw [startup] at h
    cases hu : unlockAccounts load aliases with
    | error e => rw [hu] at h; exact Except.noConfusion h
    | ok accts =>
      rw [hu] at h
      have : result = (accts, mainServer bind) := by
        cases h; rfl
      rw [this]
      exact unlockAccounts_ok_forall load aliases accts hu
  · intro a e ha he
    obtain ⟨msg, hm, b, hb, hlb⟩ :=
      unlockAccounts_err_aborts load aliases a e ha he
    exact ⟨msg, by rw [startup, hm], b, hb, hlb⟩

/-- A concrete stand-in for Account::load_from_file used to witness the
startup abort path: only "alice" has a key file. -/
def loadStub : String → Except String Account :=
  fun al =>
    if al = "alice" then .ok ⟨"alice", "addr1", "key1"⟩
    else .error "no key file"

/-- C10 witness: with a load function that fails for "bob", startup on
aliases ["alice", "bob"] aborts with exit status 1 and the failing
alias's error on stderr. -/
theorem startup_aborts_or_all_loaded_witness :
    ∃ msg,
      startup loadStub ["alice", "bob"] "127.0.0.1:3030"
          = .error (1, msg) ∧
      ∃ b ∈ ["alice", "bob"], loadStub b = .error msg :=
  (startup_aborts_or_all_loaded loadStub ["alice", "bob"]
    "127.0.0.1:3030").2 "bob" "no key file"
    (by decide) (by simp [loadStub])

/-- Each digit emitted by the encoder parses back to its value. -/
theorem hexCharVal_hexDigitChar :
    ∀ k, k < 16 → hexCharVal (hexDigitChar k) = some k := by decide

/-- Unfolding equation of the parser at a cons cell. -/
theorem parseHexAux_cons (acc : Nat) (c : Char) (rest : List Char) :
    parseHexAux acc (c :: rest)
      = match hexCharVal c with
        | some v => parseHexAux (16 * acc + v) rest
        | none => none := rfl

/-- The accumulating parser splits over list append. -/
theorem parseHexAux_append (l1 l2 : List Char) :
    ∀ acc, parseHexAux acc (l1 ++ l2)
      = (parseHexAux acc l1).bind (fun a => parseHexAux a l2) := by
  induction l1 with
  | nil => intro acc; rfl
  | cons c rest ih =>
    intro acc
    rw [List.cons_append, parseHexAux_cons, parseHexAux_cons]
    cases hd : hexCharVal c with
    | none => rfl
    | some v => exact ih (16 * acc + v)

/-- Parsing the raw digits of n from accumulator acc yields acc shifted
past those digits plus n. -/
theorem parseHexAux_toHexCore :
    ∀ (n : Nat) (acc : Nat),
      parseHexAux acc (toHexCore n)
        = some (acc * 16 ^ (toHexCore n).length + n) := by
  intro n
  induction n using Nat.strong_induction_on with
  | _ n ih =>
    intro acc
    by_cases h : n = 0
    · subst h
      rw [toHexCore]
      simp [parseHexAux]
    · rw [toHexCore, dif_neg h]
      rw [parseHexAux_append]
      have hdiv : n / 16 < n :=
        Nat.div_lt_self (Nat.pos_of_ne_zero h) (by norm_num)
      rw [ih (n / 16) hdiv acc]
      rw [Option.some_bind]
      rw [parseHexAux_cons]
      rw [hexCharVal_hexDigitChar (n % 16) (Nat.mod_lt n (by norm_num))]
      rw [List.length_append, List.length_singleton]
      show some (16 * (acc * 16 ^ (toHexCore (n / 16)).length + n / 16)
            + n % 16)
          = some (acc * 16 ^ ((toHexCore (n / 16)).length + 1) + n)
      congr 1
      calc 16 * (acc * 16 ^ (toHexCore (n / 16)).length + n / 16) + n % 16
          = acc * (16 ^ (toHexCore (n / 16)).length * 16)
              + (16 * (n / 16) + n % 16) := by ring
        _ = acc * 16 ^ ((toHexCore (n / 16)).length + 1) + n := by
            rw [Nat.div_add_mod, pow_succ]

/-- The raw digit list is empty exactly for zero. -/
theorem toHexCore_eq_nil_iff (n : Nat) : toHexCore n = [] ↔ n = 0 := by
  constructor
  · intro h
    by_contra hne
    rw [toHexCore, dif_neg hne] at h
    exact absurd h (by simp)
  · intro h; subst h; rw [toHexCore]; simp

/-- The canonical encoding body always has even length. -/
theorem numToHexBody_even (n : Nat) : (numToHexBody n).length % 2 = 0 := by
  simp only [numToHexBody]
  by_cases h : (toHexCore n).length % 2 = 1
  · rw [if_pos h]
    simp only [List.length_cons]
    omega
  · rw [if_neg h]
    by_cases he : (toHexCore n).isEmpty
    · rw [if_pos he]; rfl
    · rw [if_neg he]; omega

/-- Parsing the canonical encoding body recovers the encoded value. -/
theorem parse_numToHexBody (n : Nat) :
    parseHexAux 0 (numToHexBody n) = some n := by
  simp only [numToHexBody]
  by_cases h : (toHexCore n).length % 2 = 1
  · rw [if_pos h]
    rw [parseHexAux_cons]
    have h0 : hexCharVal '0' = some 0 := by decide
    rw [h0]
    exact (parseHexAux_toHexCore n (16 * 0 + 0)).trans (by simp)
  · rw [if_neg h]
    by_cases he : (toHexCore n).isEmpty
    · rw [if_pos he]
      have hn : n = 0 := by
        rw [← toHexCore_eq_nil_iff]
        exact List.isEmpty_iff.mp he
      subst hn
      decide
    · rw [if_neg he]
      rw [parseHexAux_toHexCore]
      simp

/-- If any character of the body is not a hex digit, parsing fails. -/
theorem parseHexAux_none_of_bad :
    ∀ (body : List Char) (c : Char), c ∈ body → hexCharVal c = none →
      ∀ acc, parseHexAux acc body = none := by
  intro body
  induction body with
  | nil => intro c hc _ _; exact absurd hc (List.not_mem_nil c)
  | cons d rest ih =>
    intro c hc hbad acc
    rw [parseHexAux]
    cases hd : hexCharVal d with
    | none => rfl
    | some v =>
      rcases List.mem_cons.mp hc with h1 | h2
      · rw [h1] at hbad; rw [hbad] at hd; exact Option.noConfusion hd
      · exact ih c h2 hbad (16 * acc + v)

/-- C4: hex-encoding any ledger integer and decoding the result
reproduces the value; inputs without the canonical prefix, with an odd
digit count, or containing a non-hex character all decode to a
ValidationError. -/
theorem hex_roundtrip_and_validation :
    (∀ n : Nat, hexToNum (numToHex n) = .ok n) ∧
    (∀ s : List Char, hasHexPrefix s = false →
      hexToNum s = .error SethError.validationMissingPrefix) ∧
    (∀ body : List Char, body.length % 2 = 1 →
      hexToNum ('0' :: 'x' :: body) = .error SethError.validationOddLength) ∧
    (∀ (body : List Char) (c : Char), c ∈ body → hexCharVal c = none →
      ∃ e, hexToNum ('0' :: 'x' :: body) = .error e) := by
  refine ⟨?_, ?_, ?_, ?_⟩
  · intro n
    rw [numToHex, hexToNum]
    rw [if_neg (by rw [numToHexBody_even n]; omega)]
    rw [parse_numToHexBody]
  · intro s h
    rw [hexToNum.eq_def]
    split
    · rename_i body
      rw [hasHexPrefix] at h
      exact absurd h (by simp)
    · rfl
  · intro body h
    rw [hexToNum, if_pos h]
  · intro body c hc hbad
    by_cases h : body.length % 2 = 1
    · exact ⟨SethError.validationOddLength, by rw [hexToNum, if_pos h]⟩
    · refine ⟨SethError.validationNonHexChar, ?_⟩
      rw [hexToNum, if_neg h]
      rw [parseHexAux_none_of_bad body c hc hbad 0]

/-- C4 witness: a concrete round trip and the three malformed shapes at
concrete inputs. -/
theorem hex_roundtrip_and_validation_witness :
    hexToNum (numToHex 255) = .ok 255 ∧
    hexToNum ['z'] = .error SethError.validationMissingPrefix ∧
    hexToNum ['0', 'x', 'a'] = .error SethError.validationOddLength ∧
    ∃ e, hexToNum ['0', 'x', 'z', 'z'] = .error e :=
  ⟨hex_roundtrip_and_validation.1 255,
   hex_roundtrip_and_validation.2.1 ['z'] (by decide),
   hex_roundtrip_and_validation.2.2.1 ['a'] (by decide),
   hex_roundtrip_and_validation.2.2.2 ['z', 'z'] 'z' (by decide) (by decide)⟩

/-- Counting in a trace extended by one event. -/
theorem count_snoc (evs : List ClientEvent) (ev e : ClientEvent) :
    (evs ++ [ev]).count e = evs.count e + (if ev = e then 1 else 0) := by
  rw [List.count_append]
  congr 1
  by_cases h : ev = e
  · subst h; simp
  · rw [if_neg h, List.count_eq_zero]
    simp only [List.mem_singleton]
    exact fun hEq => h hEq.symm

/-- sentCount over a trace extended by one event. -/
theorem sentCount_snoc (c : Nat) (evs : List ClientEvent)
    (ev : ClientEvent) :
    sentCount c (evs ++ [ev])
      = sentCount c evs + (if ev = .sent c then 1 else 0) :=
  count_snoc evs ev (.sent c)

/-- deliveredCount over a trace extended by one event. -/
theorem deliveredCount_snoc (c : Nat) (evs : List ClientEvent)
    (ev : ClientEvent) :
    deliveredCount c (evs ++ [ev])
      = deliveredCount c evs + (if ev = .delivered c then 1 else 0) :=
  count_snoc evs ev (.delivered c)

/-- timedOutCount over a trace extended by one event. -/
theorem timedOutCount_snoc (c : Nat) (evs : List ClientEvent)
    (ev : ClientEvent) :
    timedOutCount c (evs ++ [ev])
      = timedOutCount c evs + (if ev = .timedOut c then 1 else 0) :=
  count_snoc evs ev (.timedOut c)

/-- Step equation: a send allocates the next identifier. -/
theorem clientStep_send (s : ClientState) :
    clientStep s .send
      = ⟨s.nextCid + 1, s.pending ++ [s.nextCid],
         s.events ++ [.sent s.nextCid]⟩ := rfl

/-- Step equation: a reply matching a pending slot is delivered to it and
the slot is removed. -/
theorem clientStep_recv_mem (s : ClientState) (c : Nat)
    (h : c ∈ s.pending) :
    clientStep s (.recv c)
      = ⟨s.nextCid, s.pending.erase c, s.events ++ [.delivered c]⟩ := by
  simp [clientStep, h]

/-- Step equation: a reply matching no pending slot is logged and
discarded; the pending table is untouched. -/
theorem clientStep_recv_not_mem (s : ClientState) (c : Nat)
    (h : c ∉ s.pending) :
    clientStep s (.recv c)
      = ⟨s.nextCid, s.pending, s.events ++ [.discarded c]⟩ := by
  simp [clientStep, h]

/-- Step equation: a timeout removes the stale pending slot. -/
theorem clientStep_timeout_mem (s : ClientState) (c : Nat)
    (h : c ∈ s.pending) :
    clientStep s (.timeout c)
      = ⟨s.nextCid, s.pending.erase c, s.events ++ [.timedOut c]⟩ := by
  simp [clientStep, h]

/-- Step equation: a timeout for an identifier with no pending slot is a
no-op. -/
theorem clientStep_timeout_not_mem (s : ClientState) (c : Nat)
    (h : c ∉ s.pending) : clientStep s (.timeout c) = s := by
  simp [clientStep, h]

/-- Introduction form of the invariant on an explicit state. -/
theorem clientInv_mk (n : Nat) (p : List Nat) (e : List ClientEvent)
    (h1 : p.Nodup) (h2 : ∀ c ∈ p, c < n)
    (h3 : ∀ c, sentCount c e = if c < n then 1 else 0)
    (h4 : ∀ c, deliveredCount c e + timedOutCount c e
        + (if c ∈ p then 1 else 0) = sentCount c e) :
    ClientInv ⟨n, p, e⟩ :=
  ⟨h1, h2, h3, h4⟩

/-- Every step of the client preserves the correlation invariant. -/
theorem clientStep_inv (s : ClientState) (a : ClientAction)
    (h : ClientInv s) : ClientInv (clientStep s a) := by
  obtain ⟨hnd, hbound, hsent, heq⟩ := h
  cases a with
  | send =>
    have hnmem : s.nextCid ∉ s.pending := fun hm =>
      absurd (hbound _ hm) (lt_irrefl _)
    rw [clientStep_send]
    refine clientInv_mk _ _ _ ?_ ?_ ?_ ?_
    · rw [List.nodup_append]
      refine ⟨hnd, List.nodup_singleton _, ?_⟩
      intro c hc hc1
      rw [List.mem_singleton] at hc1
      subst hc1
      exact hnmem hc
    · intro c hc
      rcases List.mem_append.mp hc with h1 | h1
      · exact Nat.lt_succ_of_lt (hbound c h1)
      · rw [List.mem_singleton] at h1
        subst h1
        exact Nat.lt_succ_self _
    · intro c
      rw [sentCount_snoc, hsent c]
      simp only [ClientEvent.sent.injEq]
      split_ifs <;> omega
    · intro c
      have h0 := heq c
      have h1 := hsent c
      rw [deliveredCount_snoc, timedOutCount_snoc, sentCount_snoc]
      rw [if_neg (show ¬(ClientEvent.sent s.nextCid
            = ClientEvent.delivered c) from by simp)]
      rw [if_neg (show ¬(ClientEvent.sent s.nextCid
            = ClientEvent.timedOut c) from by simp)]
      simp only [List.mem_append, List.mem_singleton,
        ClientEvent.sent.injEq]
      by_cases hcn : c = s.nextCid
      · subst hcn
        rw [if_pos (Or.inr rfl), if_pos rfl]
        rw [if_neg hnmem] at h0
        rw [if_neg (lt_irrefl _)] at h1
        omega
      · rw [if_neg (show ¬(s.nextCid = c) from fun hEq => hcn hEq.symm)]
        by_cases hp : c ∈ s.pending
        · rw [if_pos (Or.inl hp)]
          rw [if_pos hp] at h0
          omega
        · rw [if_neg (show ¬(c ∈ s.pending ∨ c = s.nextCid) from by
            tauto)]
          rw [if_neg hp] at h0
          omega
  | recv c0 =>
    by_cases hc : c0 ∈ s.pending
    · rw [clientStep_recv_mem s c0 hc]
      refine clientInv_mk _ _ _ (hnd.erase c0) ?_ ?_ ?_
      · intro c hcm
        exact hbound c (List.mem_of_mem_erase hcm)
      · intro c
        rw [sentCount_snoc, if_neg (by simp), Nat.add_zero]
        exact hsent c
      · intro c
        have h0 := heq c
        rw [deliveredCount_snoc, timedOutCount_snoc, sentCount_snoc]
        rw [if_neg (show ¬(ClientEvent.delivered c0
              = ClientEvent.timedOut c) from by simp)]
        rw [if_neg (show ¬(ClientEvent.delivered c0
              = ClientEvent.sent c) from by simp)]
        by_cases hcc : c0 = c
        · subst hcc
          rw [if_pos rfl]
          have hne : c0 ∉ s.pending.erase c0 := by
            intro hmem
            exact ((List.Nodup.mem_erase_iff hnd).mp hmem).1 rfl
          rw [if_neg hne]
          rw [if_pos hc] at h0
          omega
        · rw [if_neg (show ¬(ClientEvent.delivered c0
              = ClientEvent.delivered c) from by simp [hcc])]
          have hmm : c ∈ s.pending.erase c0 ↔ c ∈ s.pending := by
            rw [List.Nodup.mem_erase_iff hnd]
            exact ⟨And.right, fun hm => ⟨fun hEq => hcc hEq.symm, hm⟩⟩
          by_cases hp : c ∈ s.pending
          · rw [if_pos (hmm.mpr hp)]
            rw [if_pos hp] at h0
            omega
          · rw [if_neg (fun hx => hp (hmm.mp hx))]
            rw [if_neg hp] at h0
            omega
    · rw [clientStep_recv_not_mem s c0 hc]
      refine clientInv_mk _ _ _ hnd hbound ?_ ?_
      · intro c
        rw [sentCount_snoc, if_neg (by simp), Nat.add_zero]
        exact hsent c
      · intro c
        rw [deliveredCount_snoc, timedOutCount_snoc, sentCount_snoc]
        rw [if_neg (show ¬(ClientEvent.discarded c0
              = ClientEvent.delivered c) from by simp)]
        rw [if_neg (show ¬(ClientEvent.discarded c0
              = ClientEvent.timedOut c) from by simp)]
        rw [if_neg (show ¬(ClientEvent.discarded c0
              = ClientEvent.sent c) from by simp)]
        simpa using heq c
  | timeout c0 =>
    by_cases hc : c0 ∈ s.pending
    · rw [clientStep_timeout_mem s c0 hc]
      refine clientInv_mk _ _ _ (hnd.erase c0) ?_ ?_ ?_
      · intro c hcm
        exact hbound c (List.mem_of_mem_erase hcm)
      · intro c
        rw [sentCount_snoc, if_neg (by simp), Nat.add_zero]
        exact hsent c
      · intro c
        have h0 := heq c
        rw [deliveredCount_snoc, timedOutCount_snoc, sentCount_snoc]
        rw [if_neg (show ¬(ClientEvent.timedOut c0
              = ClientEvent.delivered c) from by simp)]
        rw [if_neg (show ¬(ClientEvent.timedOut c0
              = ClientEvent.sent c) from by simp)]
        by_cases hcc : c0 = c
        · subst hcc
          rw [if_pos rfl]
          have hne : c0 ∉ s.pending.erase c0 := by
            intro hmem
            exact ((List.Nodup.mem_erase_iff hnd).mp hmem).1 rfl
          rw [if_neg hne]
          rw [if_pos hc] at h0
          omega
        · rw [if_neg (show ¬(ClientEvent.timedOut c0
              = ClientEvent.timedOut c) from by simp [hcc])]
          have hmm : c ∈ s.pending.erase c0 ↔ c ∈ s.pending := by
            rw [List.Nodup.mem_erase_iff hnd]
            exact ⟨And.right, fun hm => ⟨fun hEq => hcc hEq.symm, hm⟩⟩
          by_cases hp : c ∈ s.pending
          · rw [if_pos (hmm.mpr hp)]
            rw [if_pos hp] at h0
            omega
          · rw [if_neg (fun hx => hp (hmm.mp hx))]
            rw [if_neg hp] at h0
            omega
    · rw [clientStep_timeout_not_mem s c0 hc]
      exact ⟨hnd, hbound, hsent, heq⟩

/-- Running any action list preserves the correlation invariant. -/
theorem clientRun_inv (acts : List ClientAction) :
    ∀ s, ClientInv s → ClientInv (clientRun s acts) := by
  induction acts with
  | nil => intro s h; exact h
  | cons a rest ih =>
    intro s h
    rw [clientRun]
    exact ih (clientStep s a) (clientStep_inv s a h)

/-- The initial state satisfies the correlation invariant. -/
theorem initClient_inv : ClientInv initClient := by
  refine clientInv_mk _ _ _ List.nodup_nil (by intro c hc; cases hc)
    ?_ ?_
  · intro c
    simp [sentCount, initClient]
  · intro c
    simp [sentCount, deliveredCount, timedOutCount, initClient]

/-- Runs compose over action-list concatenation. -/
theorem clientRun_append (l1 l2 : List ClientAction) :
    ∀ s, clientRun s (l1 ++ l2) = clientRun (clientRun s l1) l2 := by
  induction l1 with
  | nil => intro s; rfl
  | cons a rest ih =>
    intro s
    rw [List.cons_append, clientRun, clientRun]
    exact ih (clientStep s a)

/-- A step only appends to the event trace. -/
theorem clientStep_events_prefix (s : ClientState) (a : ClientAction) :
    ∃ t, (clientStep s a).events = s.events ++ t := by
  cases a with
  | send => exact ⟨[.sent s.nextCid], rfl⟩
  | recv c =>
    by_cases h : c ∈ s.pending
    · exact ⟨[.delivered c], by rw [clientStep_recv_mem s c h]⟩
    · exact ⟨[.discarded c], by rw [clientStep_recv_not_mem s c h]⟩
  | timeout c =>
    by_cases h : c ∈ s.pending
    · exact ⟨[.timedOut c], by rw [clientStep_timeout_mem s c h]⟩
    · exact ⟨[], by rw [clientStep_timeout_not_mem s c h,
        List.append_nil]⟩

/-- The number of timeout removals of a given identifier never decreases
across a step. -/
theorem timedOutCount_step_mono (c : Nat) (s : ClientState)
    (a : ClientAction) :
    timedOutCount c s.events ≤ timedOutCount c (clientStep s a).events := by
  obtain ⟨t, ht⟩ := clientStep_events_prefix s a
  rw [ht]
  simp [timedOutCount, List.count_append]

/-- Once an identifier's slot has been removed by timeout, no extension
of the run ever records a delivery for that identifier. -/
theorem timedOut_no_deliver (c : Nat) :
    ∀ (acts : List ClientAction) (s : ClientState), ClientInv s →
      1 ≤ timedOutCount c s.events →
      deliveredCount c (clientRun s acts).events = 0 := by
  intro acts
  induction acts with
  | nil =>
    intro s hInv hT
    obtain ⟨_, _, hsent, heq⟩ := hInv
    have h0 := heq c
    have h1 := hsent c
    rw [clientRun]
    split_ifs at h0 h1 <;> omega
  | cons a rest ih =>
    intro s hInv hT
    rw [clientRun]
    exact ih (clientStep s a) (clientStep_inv s a hInv)
      (le_trans hT (timedOutCount_step_mono c s a))

/-- C1: every reply is delivered to at most one pending slot; a slot
removed by timeout never later receives a delivered reply; and an
envelope whose correlation identifier matches no pending slot is recorded
as discarded and leaves the pending table and counter untouched. -/
theorem reply_delivered_exactly_once :
    ∀ (actsA actsB : List ClientAction) (c : Nat),
      deliveredCount c (clientRun initClient (actsA ++ actsB)).events ≤ 1 ∧
      (ClientEvent.timedOut c ∈ (clientRun initClient actsA).events →
        deliveredCount c (clientRun initClient (actsA ++ actsB)).events
          = 0) ∧
      (∀ s : ClientState, c ∉ s.pending →
        clientStep s (.recv c)
          = ⟨s.nextCid, s.pending, s.events ++ [.discarded c]⟩) := by
  intro actsA actsB c
  refine ⟨?_, ?_, fun s hs => clientStep_recv_not_mem s c hs⟩
  · obtain ⟨_, _, hsent, heq⟩ :=
      clientRun_inv (actsA ++ actsB) initClient initClient_inv
    have h0 := heq c
    have h1 := hsent c
    split_ifs at h0 h1 <;> omega
  · intro hmem
    rw [clientRun_append]
    refine timedOut_no_deliver c actsB (clientRun initClient actsA)
      (clientRun_inv actsA initClient initClient_inv) ?_
    rw [timedOutCount]
    exact List.count_pos_iff.mpr hmem

/-- C1 witness: after a send and a timeout of identifier 0, a late reply
for 0 is not delivered; and a reply with no pending slot only records a
discard. -/
theorem reply_delivered_exactly_once_witness :
    deliveredCount 0
        (clientRun initClient
          ([ClientAction.send, ClientAction.timeout 0]
            ++ [ClientAction.recv 0])).events = 0 ∧
    clientStep initClient (ClientAction.recv 0)
      = ⟨initClient.nextCid, initClient.pending,
         initClient.events ++ [ClientEvent.discarded 0]⟩ :=
  ⟨(reply_delivered_exactly_once [ClientAction.send, ClientAction.timeout 0]
      [ClientAction.recv 0] 0).2.1 (by decide),
   (reply_delivered_exactly_once [ClientAction.send, ClientAction.timeout 0]
      [ClientAction.recv 0] 0).2.2 initClient (by decide)⟩

/-- C2: in every reachable state the outstanding correlation identifiers
are pairwise distinct, each identifier was allocated by at most one send,
was removed (by delivery or timeout) at most once, and an allocated
identifier that is no longer outstanding was removed exactly once. -/
theorem correlation_id_unique :
    ∀ (acts : List ClientAction) (c : Nat),
      (clientRun initClient acts).pending.Nodup ∧
      sentCount c (clientRun initClient acts).events ≤ 1 ∧
      deliveredCount c (clientRun initClient acts).events
          + timedOutCount c (clientRun initClient acts).events ≤ 1 ∧
      (ClientEvent.sent c ∈ (clientRun initClient acts).events →
        c ∉ (clientRun initClient acts).pending →
        deliveredCount c (clientRun initClient acts).events
            + timedOutCount c (clientRun initClient acts).events = 1) := by
  intro acts c
  obtain ⟨hnd, hbound, hsent, heq⟩ :=
    clientRun_inv acts initClient initClient_inv
  have h0 := heq c
  have h1 := hsent c
  refine ⟨hnd, ?_, ?_, ?_⟩
  · split_ifs at h1 <;> omega
  · split_ifs at h0 h1 <;> omega
  · intro hmem hnp
    have hpos : 1 ≤ sentCount c (clientRun initClient acts).events := by
      rw [sentCount]
      exact List.count_pos_iff.mpr hmem
    rw [if_neg hnp] at h0
    split_ifs at h1 <;> omega

/-- C2 witness: after a send and the matching reply, identifier 0 was
removed exactly once. -/
theorem correlation_id_unique_witness :
    deliveredCount 0
        (clientRun initClient [ClientAction.send, ClientAction.recv 0]).events
      + timedOutCount 0
        (clientRun initClient [ClientAction.send, ClientAction.recv 0]).events
      = 1 :=
  (correlation_id_unique [ClientAction.send, ClientAction.recv 0] 0).2.2.2
    (by decide) (by decide)

end SethRpc
